import Mathlib

set_option autoImplicit false

/-!
Shallow embedding of the teact rendering core (`src/src/lib/teact/teact.ts`)
and proofs about it.

Modelling conventions:
* JavaScript values that the core treats opaquely (props values, state values,
  render-function references) are modelled as `Val := Option Nat`: `none` is
  the JS value `undefined`, `some n` is any other JS value, identified by a
  canonical id `n`.  Two values are `===` exactly when they are equal in the
  model (primitives get canonical ids, objects get their allocation id).
* Mutable heap objects are threaded explicitly: functions take the data they
  mutate and return the updated copy, together with the module-level state
  they touch (the exclusion set `idsToExcludeFromUpdate`, the element
  allocator, the diagnostic channel).
* Element allocations are stamped with a fresh `elemId` drawn from an
  explicit allocator counter, so "reference identical elements" is `elemId`
  equality and "no new element is constructed" is "the allocator counter is
  unchanged".
* The user-supplied render function `Component` is arbitrary code; one call
  to it is modelled by a `RenderEffect`: the value it returns (or that it
  throws), plus the ids that nested calls it makes (to `unmountComponent` or
  `renderComponent` of other instances, teact.ts lines 405 and 523) add to
  the exclusion set.
* Code paths where the TypeScript would throw a `TypeError` by dereferencing
  a field that teardown has set to `undefined` are modelled by returning
  `none` from an `Option`-valued function.
-/

/-- Opaque JS values: `none` is `undefined`, `some n` is any other value with
canonical identity `n`. -/
abbrev Val := Option Nat

/-- The `VirtualElementTypesEnum` of teact.ts (lines 17-23). -/
inductive VETag where
  | empty
  | text
  | tag
  | component
  | fragment
deriving DecidableEq, BEq, Repr

/-- Property mapping of an element (`Props`, teact.ts line 12).  The `key`
prop is singled out because `hasElementChanged` reads it; every other prop is
an opaque named value in `rest`. -/
structure Props where
  key : Val
  rest : List (String × Val)
deriving Repr

/-- Virtual elements (teact.ts lines 25-54).  The `component` variant stores
the fields of the referenced `ComponentInstance` that the functions under
verification read through the element (`componentInstance.Component` in
`hasElementChanged`), plus the allocation id `elemId` standing for the JS
object identity of the element. -/
inductive VirtualElement where
  | empty
  | text (value : String)
  | tag (tagName : String) (props : Props) (children : List VirtualElement)
  | component (elemId : Nat) (instanceId : Nat) (componentFn : Val) (props : Props)
      (children : List VirtualElement)
  | fragment (children : List VirtualElement)
deriving Repr

/-- The `type` field of an element. -/
def VirtualElement.typeTag : VirtualElement → VETag
  | .empty => .empty
  | .text _ => .text
  | .tag _ _ _ => .tag
  | .component _ _ _ _ _ => .component
  | .fragment _ => .fragment

/-- JS `typeof` of an element: every virtual element is an object. -/
def typeofElement (_e : VirtualElement) : String := "object"

/-- `isParentElement` (teact.ts lines 170-178). -/
def isParentElement : VirtualElement → Bool
  | .tag _ _ _ => true
  | .component _ _ _ _ _ => true
  | .fragment _ => true
  | _ => false

/-- A raw child value handed to the element builders (`any` in the source):
one of the three placeholder values, a virtual element, or any other value
together with its `String(...)` conversion. -/
inductive JChild where
  | jfalse
  | jnull
  | jundef
  | elem (e : VirtualElement)
  | prim (str : String)
deriving Repr

/-- `isEmptyPlaceholder` (teact.ts lines 298-301): `false`, `null` and
`undefined` are placeholders. -/
def isEmptyPlaceholder : JChild → Bool
  | .jfalse => true
  | .jnull => true
  | .jundef => true
  | _ => false

/-- `buildTextElement` (teact.ts lines 313-318). -/
def buildTextElement (value : String) : VirtualElement :=
  .text value

/-- `buildChildElement` (teact.ts lines 303-311).  `String()` of a non-parent
element object (which has no custom `toString`) is `"[object Object]"`. -/
def buildChildElement : JChild → VirtualElement
  | .jfalse => .empty
  | .jnull => .empty
  | .jundef => .empty
  | .elem e => if isParentElement e then e else buildTextElement "[object Object]"
  | .prim s => buildTextElement s

/-- The loop of `dropEmptyTail` (teact.ts lines 279-285): index of the last
child that is not a placeholder, or `-1` if there is none. -/
def lastNonPlaceholderIdx : List JChild → Int
  | [] => -1
  | c :: cs =>
    let r := lastNonPlaceholderIdx cs
    if 0 ≤ r then r + 1
    else if isEmptyPlaceholder c then -1 else 0

/-- `dropEmptyTail` (teact.ts lines 278-296). -/
def dropEmptyTail (children : List JChild) (noEmpty : Bool) : List JChild :=
  let i := lastNonPlaceholderIdx children
  if i = (children.length : Int) - 1 then children
  else if i = -1 ∧ noEmpty then children.take 1
  else children.take (i + 1).toNat

/-- `buildTagElement` (teact.ts lines 264-275); note it calls `dropEmptyTail`
with `noEmpty` defaulted to `false`. -/
def buildTagElement (tag : String) (props : Props) (children : List JChild) :
    VirtualElement :=
  .tag tag props ((dropEmptyTail children false).map buildChildElement)

/-- `buildFragmentElement` (teact.ts lines 196-201); it calls `dropEmptyTail`
with `noEmpty = true`. -/
def buildFragmentElement (children : List JChild) : VirtualElement :=
  .fragment ((dropEmptyTail children true).map buildChildElement)

/-- State hook record (teact.ts lines 67-74).  `hasSetter` records whether the
setter closure is still stored (teardown clears it). -/
structure StateHook where
  value : Val
  nextValue : Val
  hasSetter : Bool
deriving Repr, DecidableEq

/-- Effect hook record (teact.ts lines 75-83).  The callbacks themselves are
opaque; the model records whether each optional field is present. -/
structure EffectHook where
  dependencies : Option (List Val)
  hasSchedule : Bool
  hasCleanup : Bool
  hasReleaseSignals : Bool
deriving Repr, DecidableEq

/-- Memo hook record (teact.ts lines 84-90). -/
structure MemoHook where
  value : Val
  dependencies : Option (List Val)
deriving Repr, DecidableEq

/-- Ref hook record (teact.ts lines 91-96). -/
structure RefHook where
  current : Val
deriving Repr, DecidableEq

/-- The per-instance hook container (teact.ts lines 66-97): a cursor plus an
ordered `byCursor` list for each hook kind. -/
structure Hooks where
  stateCursor : Nat
  state : List StateHook
  effectsCursor : Nat
  effects : List EffectHook
  memosCursor : Nat
  memos : List MemoHook
  refsCursor : Nat
  refs : List RefHook
deriving Repr, DecidableEq

/-- The concrete shape of a `VirtualElementComponent` as stored in
`componentInstance.$element` (teact.ts lines 44-49), kept as a structure so
that the always-component-variant invariant of `$element` is by construction.
`elemId` is the allocation identity of the element object. -/
structure CompElement where
  elemId : Nat
  instanceId : Nat
  componentFn : Val
  props : Props
  children : List VirtualElement
deriving Repr

/-- View a component element as a `VirtualElement`. -/
def CompElement.toElement (c : CompElement) : VirtualElement :=
  .component c.elemId c.instanceId c.componentFn c.props c.children

/-- JS `===` / `!==` on the `$element` field: object identity, i.e. equality
of allocation ids; `undefined === undefined` is true. -/
def elemRefEq : Option CompElement → Option CompElement → Bool
  | none, none => true
  | some a, some b => a.elemId == b.elemId
  | _, _ => false

/-- The raw output of a render function (`newRenderedValue` in
`renderComponent`): `undefined`, an array of children, or a single value
viewed as one child.  `refId` is the value's JS identity. -/
inductive RawValue where
  | undef
  | arr (refId : Nat) (items : List JChild)
  | single (refId : Nat) (child : JChild)
deriving Repr

/-- JS `===` on raw render outputs: identity of the references. -/
def RawValue.refEq : RawValue → RawValue → Bool
  | .undef, .undef => true
  | .arr r1 _, .arr r2 _ => r1 == r2
  | .single r1 _, .single r2 _ => r1 == r2
  | _, _ => false

/-- `ComponentInstance` (teact.ts lines 58-101).  Fields that teardown sets
to `undefined` are `Option`-valued (`componentFn` is a `Val`, whose `none`
already is `undefined`).  `hasOnUpdate` records whether the `onUpdate`
callback is installed; the callback itself is opaque. -/
structure ComponentInstance where
  id : Nat
  element : Option CompElement
  componentFn : Val
  name : String
  props : Option Props
  renderedValue : RawValue
  isMounted : Bool
  hooks : Option Hooks
  hasOnUpdate : Bool

/-- One call to the user-supplied render function `Component(props)`:
the value it returns, or `Except.error` if it throws; plus the ids that
nested calls it makes into the core (to `unmountComponent` or to
`renderComponent` of other instances) add to `idsToExcludeFromUpdate`. -/
structure RenderEffect where
  result : Except Unit RawValue
  extraExcl : List Nat

/-- JS `Set.add` on the exclusion set, modelled as an insertion-ordered
duplicate-free list of ids. -/
def insertId (s : List Nat) (i : Nat) : List Nat :=
  if i ∈ s then s else s ++ [i]

/-- Fold `insertId` over a list of ids. -/
def insertIds (s : List Nat) (l : List Nat) : List Nat :=
  l.foldl insertId s

/-- The diagnostic-channel entry written by the error handler of
`renderComponent` (teact.ts lines 463-470). -/
def renderErrorMsg (name : String) : String :=
  "[Teact] Error while rendering component " ++ name

/-- The cursor resets at the start of a render (teact.ts lines 413-416). -/
def resetCursors (h : Hooks) : Hooks :=
  { h with stateCursor := 0, effectsCursor := 0, memosCursor := 0, refsCursor := 0 }

/-- `Array.isArray(newRenderedValue) ? newRenderedValue : [newRenderedValue]`
(teact.ts lines 482-484), viewing the raw output as a child list. -/
def rawToChildren : RawValue → List JChild
  | .arr _ items => items
  | .single _ c => [c]
  | .undef => [JChild.jundef]

/-- `buildComponentElement` (teact.ts lines 252-262).  Takes the element
allocator counter, stamps the new element with it and advances it.  A
torn-down instance stores `undefined` props; the model substitutes empty
props there, a case no verified claim reaches. -/
def buildComponentElement (alloc : Nat) (inst : ComponentInstance)
    (children : List JChild) : Nat × CompElement :=
  (alloc + 1,
   { elemId := alloc
     instanceId := inst.id
     componentFn := inst.componentFn
     props := inst.props.getD { key := none, rest := [] }
     children := (dropEmptyTail children true).map buildChildElement })

/-- Result of `renderComponent`: the updated exclusion set, allocator and
instance, the returned element (`undefined` only for a torn-down instance),
and the diagnostic-channel entries written. -/
structure RenderResult where
  excl : List Nat
  alloc : Nat
  inst : ComponentInstance
  ret : Option CompElement
  errors : List String

/-- Lines 473-491 of teact.ts: the bail-out test and the element rebuild,
shared by every exit of `renderComponent`. -/
def renderFinish (excl : List Nat) (alloc : Nat) (inst : ComponentInstance)
    (newRenderedValue : RawValue) (errors : List String) : RenderResult :=
  if inst.isMounted ∧ RawValue.refEq newRenderedValue inst.renderedValue then
    { excl := excl, alloc := alloc, inst := inst, ret := inst.element, errors := errors }
  else
    let inst1 := { inst with renderedValue := newRenderedValue }
    let built := buildComponentElement alloc inst1 (rawToChildren newRenderedValue)
    { excl := excl, alloc := built.1
      inst := { inst1 with element := some built.2 }
      ret := some built.2, errors := errors }

/-- `renderComponent` (teact.ts lines 404-491).  The body under `safeExec`
first dereferences `hooks` (a `TypeError` caught by `safeExec` when teardown
has cleared it, so the render function is never reached), then resets the
cursors, then runs `Component(props)`, whose outcome and nested exclusions
are `fx`.  On either failure the handler logs one diagnostic entry and reuses
the previous `renderedValue`. -/
def renderComponent (excl : List Nat) (alloc : Nat) (inst : ComponentInstance)
    (fx : RenderEffect) : RenderResult :=
  let excl1 := insertId excl inst.id
  match inst.hooks with
  | none =>
    renderFinish excl1 alloc inst inst.renderedValue [renderErrorMsg inst.name]
  | some h =>
    let inst1 := { inst with hooks := some (resetCursors h) }
    let excl2 := insertIds excl1 fx.extraExcl
    match fx.result with
    | .error _ =>
      renderFinish excl2 alloc inst1 inst.renderedValue [renderErrorMsg inst.name]
    | .ok v =>
      renderFinish excl2 alloc inst1 v []

/-- `hasElementChanged` (teact.ts lines 493-510). -/
def hasElementChanged (oldEl newEl : VirtualElement) : Bool :=
  if typeofElement oldEl != typeofElement newEl then true
  else if oldEl.typeTag != newEl.typeTag then true
  else
    match oldEl, newEl with
    | .text v1, .text v2 => v1 != v2
    | .tag t1 p1 _, .tag t2 p2 _ => t1 != t2 || p1.key != p2.key
    | .component _ _ f1 p1 _, .component _ _ f2 p2 _ => f1 != f2 || p1.key != p2.key
    | _, _ => false

/-- `mountComponent` (teact.ts lines 512-516): render, set the mounted flag,
return `componentInstance.$element`. -/
def mountComponent (excl : List Nat) (alloc : Nat) (inst : ComponentInstance)
    (fx : RenderEffect) : RenderResult :=
  let r := renderComponent excl alloc inst fx
  let inst1 := { r.inst with isMounted := true }
  { r with inst := inst1, ret := inst1.element }

/-- `helpGc` (teact.ts lines 540-569).  The source first clears every mutable
field of every hook record (lines 541-561) and then discards the container
itself together with the other references (lines 563-568); without external
aliases the composite effect on the instance is clearing the containers. -/
def helpGc (inst : ComponentInstance) : ComponentInstance :=
  { inst with
    hooks := none
    element := none
    renderedValue := .undef
    componentFn := none
    props := none
    hasOnUpdate := false }

/-- Result of `unmountComponent`: updated exclusion set and instance, and
how many stored effect cleanups and signal releases were invoked (each under
`safeExec` fault isolation). -/
structure UnmountResult where
  excl : List Nat
  inst : ComponentInstance
  cleanupsRun : Nat
  releasesRun : Nat

/-- `unmountComponent` (teact.ts lines 518-537).  Returns `none` exactly when
the source would throw: line 525 dereferences `hooks.effects` without a
guard, so a mounted instance whose hooks were already discarded crashes
(unreachable for instances managed by this module, which clear hooks only
together with the mounted flag). -/
def unmountComponent (excl : List Nat) (inst : ComponentInstance) :
    Option UnmountResult :=
  if inst.isMounted = false then
    some { excl := excl, inst := inst, cleanupsRun := 0, releasesRun := 0 }
  else
    match inst.hooks with
    | none => none
    | some h =>
      some { excl := insertId excl inst.id
             inst := helpGc { inst with isMounted := false }
             cleanupsRun := (h.effects.filter (fun e => e.hasCleanup)).length
             releasesRun := (h.effects.filter (fun e => e.hasReleaseSignals)).length }

/-- `prepareComponentForFrame` (teact.ts lines 571-579): guarded no-op when
not mounted, otherwise copies every staged `nextValue` into the live `value`.
Returns `none` when the source would throw (mounted but hooks discarded). -/
def prepareComponentForFrame (inst : ComponentInstance) : Option ComponentInstance :=
  if inst.isMounted = false then
    some inst
  else
    match inst.hooks with
    | none => none
    | some h =>
      some { inst with
             hooks := some { h with
               state := h.state.map (fun s => { s with value := s.nextValue }) } }

/-- Result of `forceUpdateComponent`. -/
structure ForceUpdateResult where
  excl : List Nat
  alloc : Nat
  inst : ComponentInstance
  errors : List String
  onUpdateCalled : Bool

/-- `forceUpdateComponent` (teact.ts lines 581-593): guarded no-op when not
mounted or no `onUpdate` installed; otherwise captures the current element,
re-renders, and reports whether `onUpdate` fired, which happens exactly when
the element reference changed. -/
def forceUpdateComponent (excl : List Nat) (alloc : Nat) (inst : ComponentInstance)
    (fx : RenderEffect) : ForceUpdateResult :=
  if inst.isMounted = false ∨ inst.hasOnUpdate = false then
    { excl := excl, alloc := alloc, inst := inst, errors := [], onUpdateCalled := false }
  else
    let currentElement := inst.element
    let r := renderComponent excl alloc inst fx
    { excl := r.excl, alloc := r.alloc, inst := r.inst, errors := r.errors
      onUpdateCalled := !(elemRefEq r.inst.element currentElement) }

/-- JS `Set.add` on `instancesPendingUpdate`: instances are deduplicated by
object identity, which coincides with id equality because instance ids are
unique for the process lifetime (teact.ts line 218). -/
def enqueueUpdate (pending : List ComponentInstance) (inst : ComponentInstance) :
    List ComponentInstance :=
  if pending.any (fun i => i.id == inst.id) then pending else pending ++ [inst]

/-- `Array.from(instancesPendingUpdate).sort((a, b) => a.id - b.id)`
(teact.ts lines 362-364). -/
def sortInstancesById (l : List ComponentInstance) : List ComponentInstance :=
  l.mergeSort (fun a b => decide (a.id ≤ b.id))

/-- Observable events of one write phase, in order: a prepare-for-frame of an
instance, a forced update of an instance, or a skip because the instance id
was in the exclusion set when its update turn came. -/
inductive PassEvent where
  | prep (id : Nat)
  | update (id : Nat)
  | skip (id : Nat)
deriving DecidableEq, Repr

/-- Whether a pass event is a prepare step. -/
def PassEvent.isPrep : PassEvent → Bool
  | .prep _ => true
  | _ => false

/-- `instancesToUpdate.forEach(prepareComponentForFrame)` (teact.ts line
376): prepare each captured instance in order; `none` when one of the calls
throws, which aborts the whole write phase. -/
def prepAll : List ComponentInstance → Option (List ComponentInstance)
  | [] => some []
  | i :: is =>
    match prepareComponentForFrame i with
    | none => none
    | some i1 => (prepAll is).map (fun rest => i1 :: rest)

/-- Accumulated state of the forced-update loop of the write phase. -/
structure WritePhaseState where
  excl : List Nat
  alloc : Nat
  processed : List ComponentInstance
  errors : List String
  updatedIds : List Nat
  trace : List PassEvent

/-- One iteration of the forced-update loop (teact.ts lines 377-383): skip
the instance if its id is in the current exclusion set, otherwise force it
through `forceUpdateComponent`. -/
def updStep (fx : Nat → RenderEffect) (acc : WritePhaseState)
    (inst : ComponentInstance) : WritePhaseState :=
  if inst.id ∈ acc.excl then
    { acc with
      processed := acc.processed ++ [inst]
      trace := acc.trace ++ [PassEvent.skip inst.id] }
  else
    let r := forceUpdateComponent acc.excl acc.alloc inst (fx inst.id)
    { excl := r.excl
      alloc := r.alloc
      processed := acc.processed ++ [r.inst]
      errors := acc.errors ++ r.errors
      updatedIds := acc.updatedIds ++ (if r.onUpdateCalled then [inst.id] else [])
      trace := acc.trace ++ [PassEvent.update inst.id] }

/-- The write phase of `runUpdatePassOnRaf` (teact.ts lines 375-384): the
pending set was captured, deduplicated and sorted ascending by id at the
start of the read phase; every captured instance is prepared for the frame,
then each is forced through `forceUpdateComponent` unless its id is in the
exclusion set when its turn comes.  `excl0` is the exclusion-set content at
the start of the write phase (the set is reset at the start of the read
phase, line 361, and may have been repopulated by effect callbacks);
`fx id` is the behaviour of instance `id`'s render function during this
pass.  `none` models an uncaught exception aborting the phase. -/
def writePhase (fx : Nat → RenderEffect) (excl0 : List Nat) (alloc0 : Nat)
    (pending : List ComponentInstance) : Option WritePhaseState :=
  let sorted := sortInstancesById pending
  match prepAll sorted with
  | none => none
  | some prepared =>
    some (prepared.foldl (updStep fx)
      { excl := excl0
        alloc := alloc0
        processed := []
        errors := []
        updatedIds := []
        trace := sorted.map (fun i => PassEvent.prep i.id) })

/-- The four deferred-callback queues of the scheduler (teact.ts lines
339-342). -/
inductive QueueKind where
  | cleanup
  | effect
  | layoutCleanup
  | layoutEffect
deriving DecidableEq, Repr

/-- A deferred callback, modelled by its observable effect on the scheduler:
the list of (queue, key, callback) entries it enqueues when invoked. -/
inductive CB where
  | mk (enq : List (QueueKind × String × CB))

/-- The entries a callback enqueues when invoked. -/
def CB.enqList : CB → List (QueueKind × String × CB)
  | .mk l => l

/-- A keyed callback queue: a JS `Map<string, cb>` as an insertion-ordered
association list. -/
abbrev CbQueue := List (String × CB)

/-- JS `Map.set`: replace in place if the key exists, else append. -/
def mapSet (m : CbQueue) (k : String) (v : CB) : CbQueue :=
  if m.any (fun p => p.1 == k) then
    m.map (fun p => if p.1 == k then (k, v) else p)
  else m ++ [(k, v)]

/-- The module-level queue variables (teact.ts lines 339-342). -/
structure EffectQueues where
  pendingCleanups : CbQueue
  pendingEffects : CbQueue
  pendingLayoutCleanups : CbQueue
  pendingLayoutEffects : CbQueue

/-- Read one of the four queues. -/
def getQ : QueueKind → EffectQueues → CbQueue
  | .cleanup, s => s.pendingCleanups
  | .effect, s => s.pendingEffects
  | .layoutCleanup, s => s.pendingLayoutCleanups
  | .layoutEffect, s => s.pendingLayoutEffects

/-- Replace one of the four queues. -/
def setQ : QueueKind → EffectQueues → CbQueue → EffectQueues
  | .cleanup, s, q => { s with pendingCleanups := q }
  | .effect, s, q => { s with pendingEffects := q }
  | .layoutCleanup, s, q => { s with pendingLayoutCleanups := q }
  | .layoutEffect, s, q => { s with pendingLayoutEffects := q }

/-- Invoke one callback: fold its enqueues into the queues. -/
def runCb (s : EffectQueues) (cb : CB) : EffectQueues :=
  cb.enqList.foldl (fun st e => setQ e.1 st (mapSet (getQ e.1 st) e.2.1 e.2.2)) s

/-- One queue drain, the pattern of teact.ts lines 367-373 and 395-401:
swap the shared queue for a fresh empty one, then invoke every callback of
the swapped-out snapshot in order.  Returns the resulting queues and the
snapshot that was invoked. -/
def drainQueue (k : QueueKind) (s : EffectQueues) : EffectQueues × CbQueue :=
  let current := getQ k s
  let s1 := setQ k s []
  (current.foldl (fun st p => runCb st p.2) s1, current)

/-- `runImmediateEffects` (teact.ts lines 394-402): drain the layout-cleanup
queue, then the layout-effect queue.  Returns the resulting queues and the
two invoked snapshots. -/
def runImmediateEffects (s : EffectQueues) : EffectQueues × CbQueue × CbQueue :=
  let r1 := drainQueue .layoutCleanup s
  let r2 := drainQueue .layoutEffect r1.1
  (r2.1, r1.2, r2.2)

/-- The argument of a state-hook setter: a direct next value, or a function
of the current value. -/
inductive SetterArg where
  | direct (v : Val)
  | updater (f : Val → Val)

/-- Resolve a setter argument against the current live value. -/
def resolveSetterArg (cur : Val) : SetterArg → Val
  | .direct v => v
  | .updater f => f cur

/-- Modelled from the spec: the teact `useState` implementation is missing
from src (teact.ts lines 594-602 re-export `useState` from React, so only
its callers and the hook record it writes are in the repository).  Per spec
section 4.2, the setter "stores the requested next value (or applies a
function-of-current-value) into the staged slot" and "does not mutate
`value` in place"; per section 3, the staged next-value is "written by the
setter, applied only at frame-prepare time". -/
def stateSetterWrite (hook : StateHook) (arg : SetterArg) : StateHook :=
  { hook with nextValue := resolveSetterArg hook.value arg }

/-- Modelled from the spec: the instance-level effect of one setter call on
the owning instance — write the staged slot at the hook's cursor position
and enqueue the owning instance for update (spec section 4.2: the setter
"enqueues the owning instance for update"). -/
def stateSetterCall (pending : List ComponentInstance) (inst : ComponentInstance)
    (cursor : Nat) (arg : SetterArg) : List ComponentInstance × ComponentInstance :=
  match inst.hooks with
  | none => (pending, inst)
  | some h =>
    let inst1 := { inst with
      hooks := some { h with
        state := h.state.modify (fun s => stateSetterWrite s arg) cursor } }
    (enqueueUpdate pending inst1, inst1)

/-- Specification-side description of dropping the trailing placeholder run:
remove the longest all-placeholder suffix. -/
def removeTrailingPlaceholders (l : List JChild) : List JChild :=
  (l.reverse.dropWhile isEmptyPlaceholder).reverse

/-- Concrete hook container with no hook records, for evaluation. -/
def emptyHooks : Hooks :=
  { stateCursor := 0, state := [], effectsCursor := 0, effects := []
    memosCursor := 0, memos := [], refsCursor := 0, refs := [] }

/-- Concrete stored element of the sample mounted instance. -/
def witElem : CompElement :=
  { elemId := 3, instanceId := 7, componentFn := some 1
    props := { key := none, rest := [] }, children := [.empty] }

/-- Concrete mounted instance, for evaluation. -/
def witMounted : ComponentInstance :=
  { id := 7, element := some witElem, componentFn := some 1, name := "Foo"
    props := some { key := none, rest := [] }
    renderedValue := .single 5 (.prim "x"), isMounted := true
    hooks := some emptyHooks, hasOnUpdate := true }

/-- Concrete hook container with one state hook, for evaluation. -/
def witStateHooks : Hooks :=
  { emptyHooks with state := [{ value := some 2, nextValue := some 2, hasSetter := true }] }

/-- Concrete mounted instance owning one state hook, for evaluation. -/
def witMountedState : ComponentInstance :=
  { witMounted with id := 8, hooks := some witStateHooks }

/-- Concrete never-mounted instance that has not rendered yet. -/
def witUnmounted : ComponentInstance :=
  { id := 9, element := none, componentFn := some 1, name := "Bar"
    props := some { key := none, rest := [] }
    renderedValue := .undef, isMounted := false
    hooks := some emptyHooks, hasOnUpdate := false }

/-- Concrete pending instance (id 2), for evaluating the write phase. -/
def witInstA : ComponentInstance :=
  { witMounted with id := 2 }

/-- Concrete pending instance (id 1), for evaluating the write phase. -/
def witInstB : ComponentInstance :=
  { witMounted with id := 1 }

/-- Concrete render behaviour: every render returns the same reference. -/
def witFx : Nat → RenderEffect :=
  fun _ => { result := .ok (.single 5 (.prim "x")), extraExcl := [] }

/-- Concrete render outcome returning the stored reference. -/
def witFxOk : RenderEffect :=
  { result := .ok (.single 5 (.prim "x")), extraExcl := [] }

/-- Concrete render outcome that throws. -/
def witFxErr : RenderEffect :=
  { result := .error (), extraExcl := [] }

/-- Concrete queue state: one pending cleanup that re-enqueues under a new
key into the queue being drained. -/
def witQueues : EffectQueues :=
  { pendingCleanups := [("a", CB.mk [(.cleanup, "b", CB.mk [])])]
    pendingEffects := [], pendingLayoutCleanups := [], pendingLayoutEffects := [] }

/-- Reflexivity of JS identity on raw render outputs. -/
theorem RawValue.refEq_refl (v : RawValue) : RawValue.refEq v v = true := by
  cases v <;> simp [RawValue.refEq]

/-- Reflexivity of JS identity on stored elements. -/
theorem elemRefEq_refl (o : Option CompElement) : elemRefEq o o = true := by
  cases o <;> simp [elemRefEq]


theorem lastNonPlaceholderIdx_cons (c : JChild) (cs : List JChild) :
    lastNonPlaceholderIdx (c :: cs) =
      if 0 ≤ lastNonPlaceholderIdx cs then lastNonPlaceholderIdx cs + 1
      else if isEmptyPlaceholder c then -1 else 0 := rfl

theorem lastNonPlaceholderIdx_ge (l : List JChild) :
    -1 ≤ lastNonPlaceholderIdx l := by
  induction l with
  | nil => simp [lastNonPlaceholderIdx]
  | cons c cs ih =>
    rw [lastNonPlaceholderIdx_cons]
    by_cases hr : 0 ≤ lastNonPlaceholderIdx cs
    · rw [if_pos hr]; omega
    · rw [if_neg hr]
      by_cases hc : isEmptyPlaceholder c = true
      · rw [if_pos hc]
      · rw [if_neg hc]; omega

theorem lastNonPlaceholderIdx_lt (l : List JChild) :
    lastNonPlaceholderIdx l < (l.length : Int) := by
  induction l with
  | nil => simp [lastNonPlaceholderIdx]
  | cons c cs ih =>
    rw [lastNonPlaceholderIdx_cons]
    simp only [List.length_cons]
    by_cases hr : 0 ≤ lastNonPlaceholderIdx cs
    · rw [if_pos hr]; push_cast; omega
    · rw [if_neg hr]
      by_cases hc : isEmptyPlaceholder c = true
      · rw [if_pos hc]; push_cast; omega
      · rw [if_neg hc]; push_cast; omega

theorem lastNonPlaceholderIdx_neg_one_iff (l : List JChild) :
    lastNonPlaceholderIdx l = -1 ↔ ∀ c ∈ l, isEmptyPlaceholder c = true := by
  induction l with
  | nil => simp [lastNonPlaceholderIdx]
  | cons c cs ih =>
    rw [lastNonPlaceholderIdx_cons]
    by_cases hr : 0 ≤ lastNonPlaceholderIdx cs
    · rw [if_pos hr]
      constructor
      · intro h; exfalso; omega
      · intro h
        exfalso
        have hcs : lastNonPlaceholderIdx cs = -1 :=
          ih.mpr (fun x hx => h x (List.mem_cons_of_mem c hx))
        omega
    · rw [if_neg hr]
      have hge := lastNonPlaceholderIdx_ge cs
      have hcs : lastNonPlaceholderIdx cs = -1 := by omega
      by_cases hc : isEmptyPlaceholder c = true
      · rw [if_pos hc]
        constructor
        · intro _ x hx
          rcases List.mem_cons.mp hx with rfl | hx
          · exact hc
          · exact ih.mp hcs x hx
        · intro _; rfl
      · rw [if_neg hc]
        constructor
        · intro h; exact absurd h (by norm_num)
        · intro h; exact absurd (h c (List.mem_cons_self c cs)) hc

theorem take_lastNonPlaceholderIdx (l : List JChild) :
    l.take (lastNonPlaceholderIdx l + 1).toNat = removeTrailingPlaceholders l := by
  induction l with
  | nil => simp [lastNonPlaceholderIdx, removeTrailingPlaceholders]
  | cons c cs ih =>
    rw [lastNonPlaceholderIdx_cons]
    simp only [removeTrailingPlaceholders, List.reverse_cons]
    rw [List.dropWhile_append]
    by_cases hr : 0 ≤ lastNonPlaceholderIdx cs
    · have hne : ¬((cs.reverse.dropWhile isEmptyPlaceholder).isEmpty = true) := by
        rw [List.isEmpty_iff, List.dropWhile_eq_nil_iff]
        intro hall
        have hcs : lastNonPlaceholderIdx cs = -1 :=
          (lastNonPlaceholderIdx_neg_one_iff cs).mpr
            (fun x hx => hall x (List.mem_reverse.mpr hx))
        omega
      rw [if_pos hr, if_neg hne, List.reverse_append]
      have h1 : (lastNonPlaceholderIdx cs + 1 + 1).toNat
          = (lastNonPlaceholderIdx cs + 1).toNat + 1 := by omega
      rw [h1, List.take_succ_cons, ih]
      simp [removeTrailingPlaceholders]
    · have hge := lastNonPlaceholderIdx_ge cs
      have hcs : lastNonPlaceholderIdx cs = -1 := by omega
      have hall : ∀ x ∈ cs, isEmptyPlaceholder x = true :=
        (lastNonPlaceholderIdx_neg_one_iff cs).mp hcs
      have hemp : cs.reverse.dropWhile isEmptyPlaceholder = [] := by
        rw [List.dropWhile_eq_nil_iff]
        intro x hx
        exact hall x (List.mem_reverse.mp hx)
      rw [if_neg hr, hemp]
      simp only [List.isEmpty_nil, if_true]
      by_cases hc : isEmptyPlaceholder c = true
      · rw [if_pos hc]
        simp [List.dropWhile_cons, hc]
      · rw [if_neg hc]
        simp [List.dropWhile_cons, hc]

theorem isEmpty_false_iff {α : Type} (l : List α) : l.isEmpty = false ↔ l ≠ [] := by
  cases l <;> simp

theorem dropEmptyTail_eq (l : List JChild) (b : Bool) :
    dropEmptyTail l b =
      if b = true ∧ l.isEmpty = false ∧ l.all isEmptyPlaceholder = true then l.take 1
      else removeTrailingPlaceholders l := by
  have hto := take_lastNonPlaceholderIdx l
  have hlt := lastNonPlaceholderIdx_lt l
  have hge := lastNonPlaceholderIdx_ge l
  simp only [dropEmptyTail]
  by_cases h1 : lastNonPlaceholderIdx l = (l.length : Int) - 1
  · have hrtp : removeTrailingPlaceholders l = l := by
      rw [← hto]
      have h2 : (lastNonPlaceholderIdx l + 1).toNat = l.length := by omega
      rw [h2, List.take_length]
    have hcond : ¬(b = true ∧ l.isEmpty = false ∧ l.all isEmptyPlaceholder = true) := by
      rintro ⟨hb, hne, hall⟩
      have hidx : lastNonPlaceholderIdx l = -1 :=
        (lastNonPlaceholderIdx_neg_one_iff l).mpr
          (fun c hc => List.all_eq_true.mp hall c hc)
      have hlen : l.length ≠ 0 :=
        fun h => ((isEmpty_false_iff l).mp hne) (List.length_eq_zero.mp h)
      omega
    rw [if_pos h1, if_neg hcond, hrtp]
  · rw [if_neg h1]
    by_cases h2 : lastNonPlaceholderIdx l = -1 ∧ b = true
    · have hall : l.all isEmptyPlaceholder = true :=
        List.all_eq_true.mpr ((lastNonPlaceholderIdx_neg_one_iff l).mp h2.1)
      have hne : l.isEmpty = false := by
        rw [isEmpty_false_iff]
        rintro rfl
        exact h1 (by simp [lastNonPlaceholderIdx])
      rw [if_pos h2, if_pos ⟨h2.2, hne, hall⟩]
    · have hcond : ¬(b = true ∧ l.isEmpty = false ∧ l.all isEmptyPlaceholder = true) := by
        rintro ⟨hb, hne, hall⟩
        exact h2 ⟨(lastNonPlaceholderIdx_neg_one_iff l).mpr
          (fun c hc => List.all_eq_true.mp hall c hc), hb⟩
      rw [if_neg h2, if_neg hcond]
      exact hto

theorem buildChildElement_placeholder (c : JChild)
    (h : isEmptyPlaceholder c = true) : buildChildElement c = .empty := by
  cases c <;> simp_all [isEmptyPlaceholder, buildChildElement]

theorem dropEmptyTail_true_map (children : List JChild) :
    (dropEmptyTail children true).map buildChildElement
      = (if children.isEmpty = false ∧ children.all isEmptyPlaceholder = true
         then [VirtualElement.empty]
         else (removeTrailingPlaceholders children).map buildChildElement) := by
  rw [dropEmptyTail_eq]
  by_cases h : children.isEmpty = false ∧ children.all isEmptyPlaceholder = true
  · rw [if_pos ⟨rfl, h.1, h.2⟩, if_pos h]
    cases children with
    | nil => simp at h
    | cons c cs =>
      have hc : isEmptyPlaceholder c = true :=
        List.all_eq_true.mp h.2 c (List.mem_cons_self c cs)
      rw [show (1 : Nat) = 0 + 1 from rfl, List.take_succ_cons, List.take_zero]
      simp [buildChildElement_placeholder c hc]
  · have hcond : ¬(true = true ∧ children.isEmpty = false
        ∧ children.all isEmptyPlaceholder = true) := by
      rintro ⟨_, h2, h3⟩
      exact h ⟨h2, h3⟩
    rw [if_neg hcond, if_neg h]

/-- Claim C5: for Component-variant elements `hasElementChanged` returns true
exactly when the render-function references differ or the `key` props differ;
quantifying over all remaining fields (instance ids, element ids, other
props, children) shows no other data participates. -/
theorem hasElementChanged_component_iff
    (eid1 iid1 : Nat) (f1 : Val) (p1 : Props) (c1 : List VirtualElement)
    (eid2 iid2 : Nat) (f2 : Val) (p2 : Props) (c2 : List VirtualElement) :
    (hasElementChanged (.component eid1 iid1 f1 p1 c1) (.component eid2 iid2 f2 p2 c2)
        = true)
      ↔ (f1 ≠ f2 ∨ p1.key ≠ p2.key) := by
  simp [hasElementChanged, typeofElement, VirtualElement.typeTag]
  intro h
  exact absurd h (by decide)

/-- Claim C6 (counterexample): for the string-tag builder, `dropEmptyTail` is
called without `noEmpty`, so a child list consisting entirely of placeholders
becomes the empty sequence, not one Empty element as the claim states. -/
theorem buildTagElement_allPlaceholder_counterexample :
    buildTagElement "div" { key := none, rest := [] } [JChild.jfalse]
      = VirtualElement.tag "div" { key := none, rest := [] } [] ∧
    ([] : List VirtualElement) ≠ [VirtualElement.empty] := by
  exact ⟨rfl, by simp⟩

/-- Claim C6 (amended): every element builder drops the trailing placeholder
run of its child list; for the fragment and component builders (which pass
`noEmpty = true`) a nonempty child list consisting entirely of placeholders
collapses to exactly one Empty element, while for the string-tag builder it
collapses to the empty sequence, and an empty child list stays empty
everywhere. -/
theorem buildElement_children_spec (t : String) (p : Props) (alloc : Nat)
    (inst : ComponentInstance) (children : List JChild) :
    buildTagElement t p children
      = VirtualElement.tag t p
          ((removeTrailingPlaceholders children).map buildChildElement) ∧
    buildFragmentElement children
      = VirtualElement.fragment
          (if children.isEmpty = false ∧ children.all isEmptyPlaceholder = true
           then [VirtualElement.empty]
           else (removeTrailingPlaceholders children).map buildChildElement) ∧
    (buildComponentElement alloc inst children).2.children
      = (if children.isEmpty = false ∧ children.all isEmptyPlaceholder = true
         then [VirtualElement.empty]
         else (removeTrailingPlaceholders children).map buildChildElement) := by
  refine ⟨?_, ?_, ?_⟩
  · rw [buildTagElement, dropEmptyTail_eq]
    have hcond : ¬(false = true ∧ children.isEmpty = false
        ∧ children.all isEmptyPlaceholder = true) := by
      rintro ⟨h, _, _⟩
      exact Bool.false_ne_true h
    rw [if_neg hcond]
  · rw [buildFragmentElement, dropEmptyTail_true_map]
  · rw [buildComponentElement]
    simp only
    rw [dropEmptyTail_true_map]

/-- Claim C1: for a mounted instance, when the render function returns a raw
output reference-identical to the stored `renderedValue`, `renderComponent`
returns the previously built element unchanged, stores no new element,
allocates nothing, and a `forceUpdateComponent` whose render bails out this
way never invokes `onUpdate`. -/
theorem renderComponent_bailout
    (excl : List Nat) (alloc : Nat) (inst : ComponentInstance) (h : Hooks)
    (fx : RenderEffect) (v : RawValue)
    (hm : inst.isMounted = true) (hh : inst.hooks = some h)
    (hres : fx.result = .ok v)
    (hid : RawValue.refEq v inst.renderedValue = true) :
    (renderComponent excl alloc inst fx).ret = inst.element ∧
    (renderComponent excl alloc inst fx).inst.element = inst.element ∧
    (renderComponent excl alloc inst fx).inst.renderedValue = inst.renderedValue ∧
    (renderComponent excl alloc inst fx).alloc = alloc ∧
    (forceUpdateComponent excl alloc inst fx).onUpdateCalled = false := by
  have hrc : renderComponent excl alloc inst fx
      = renderFinish (insertIds (insertId excl inst.id) fx.extraExcl) alloc
          { inst with hooks := some (resetCursors h) } v [] := by
    rw [renderComponent, hh, hres]
  have hfin : renderComponent excl alloc inst fx
      = { excl := insertIds (insertId excl inst.id) fx.extraExcl
          alloc := alloc
          inst := { inst with hooks := some (resetCursors h) }
          ret := inst.element
          errors := [] } := by
    rw [hrc, renderFinish, if_pos ⟨hm, hid⟩]
  refine ⟨by rw [hfin], by rw [hfin], by rw [hfin], by rw [hfin], ?_⟩
  rw [forceUpdateComponent]
  by_cases hu : inst.hasOnUpdate = false
  · rw [if_pos (Or.inr hu)]
  · rw [if_neg (by
      intro hor
      rcases hor with h1 | h1
      · rw [hm] at h1; exact Bool.noConfusion h1
      · exact hu h1)]
    simp only [hfin, elemRefEq_refl, Bool.not_true]

/-- Claim C3: when the render function throws, `renderComponent` writes
exactly one diagnostic entry naming the component, reuses the previous raw
output as the render result, and for a mounted instance leaves the stored
element reference-equal to what it was before the call. -/
theorem renderComponent_render_throws
    (excl : List Nat) (alloc : Nat) (inst : ComponentInstance) (h : Hooks)
    (fx : RenderEffect)
    (hh : inst.hooks = some h) (hres : fx.result = .error ()) :
    (renderComponent excl alloc inst fx).errors = [renderErrorMsg inst.name] ∧
    (renderComponent excl alloc inst fx).inst.renderedValue = inst.renderedValue ∧
    (inst.isMounted = true →
      (renderComponent excl alloc inst fx).inst.element = inst.element ∧
      (renderComponent excl alloc inst fx).ret = inst.element) := by
  have hrc : renderComponent excl alloc inst fx
      = renderFinish (insertIds (insertId excl inst.id) fx.extraExcl) alloc
          { inst with hooks := some (resetCursors h) } inst.renderedValue
          [renderErrorMsg inst.name] := by
    rw [renderComponent, hh, hres]
  rw [hrc, renderFinish]
  by_cases hm : inst.isMounted = true
  · rw [if_pos ⟨hm, RawValue.refEq_refl inst.renderedValue⟩]
    exact ⟨rfl, rfl, fun _ => ⟨rfl, rfl⟩⟩
  · rw [if_neg (fun hc => hm hc.1)]
    exact ⟨rfl, rfl, fun hmt => absurd hmt hm⟩

/-- Claim C10: `mountComponent` always sets `isMounted` to true, and when the
first render throws (previous `renderedValue` still `undefined`) it still
returns a structurally complete Component element wrapping exactly one Empty
child, after reporting one diagnostic entry. -/
theorem mountComponent_first_render_throws
    (excl : List Nat) (alloc : Nat) (inst : ComponentInstance) (h : Hooks)
    (fx : RenderEffect)
    (hm : inst.isMounted = false) (hh : inst.hooks = some h)
    (hrv : inst.renderedValue = .undef) (hres : fx.result = .error ()) :
    (∀ (excl2 : List Nat) (alloc2 : Nat) (inst2 : ComponentInstance)
        (fx2 : RenderEffect),
        (mountComponent excl2 alloc2 inst2 fx2).inst.isMounted = true) ∧
    (∃ e, (mountComponent excl alloc inst fx).ret = some e ∧
        e.children = [VirtualElement.empty] ∧
        (mountComponent excl alloc inst fx).inst.element = some e) ∧
    (mountComponent excl alloc inst fx).errors = [renderErrorMsg inst.name] ∧
    (mountComponent excl alloc inst fx).inst.renderedValue = .undef := by
  have hrc : renderComponent excl alloc inst fx
      = renderFinish (insertIds (insertId excl inst.id) fx.extraExcl) alloc
          { inst with hooks := some (resetCursors h) } inst.renderedValue
          [renderErrorMsg inst.name] := by
    rw [renderComponent, hh, hres]
  have hnotbail : ¬(inst.isMounted = true
      ∧ RawValue.refEq inst.renderedValue inst.renderedValue = true) := by
    rintro ⟨h1, _⟩
    rw [hm] at h1
    exact Bool.false_ne_true h1
  refine ⟨fun excl2 alloc2 inst2 fx2 => rfl, ?_, ?_, ?_⟩
  · refine ⟨(buildComponentElement alloc
      { inst with hooks := some (resetCursors h), renderedValue := inst.renderedValue }
      (rawToChildren inst.renderedValue)).2, ?_, ?_, ?_⟩
    · rw [mountComponent]
      simp only [hrc, renderFinish, if_neg hnotbail]
    · rw [hrv]
      simp [buildComponentElement, rawToChildren, dropEmptyTail,
        lastNonPlaceholderIdx, isEmptyPlaceholder, buildChildElement]
    · rw [mountComponent]
      simp only [hrc, renderFinish, if_neg hnotbail]
  · rw [mountComponent]
    simp only [hrc, renderFinish, if_neg hnotbail]
  · rw [mountComponent]
    simp only [hrc, renderFinish, if_neg hnotbail]
    exact hrv

theorem mem_insertId (s : List Nat) (i : Nat) : i ∈ insertId s i := by
  rw [insertId]
  by_cases h : i ∈ s
  · rw [if_pos h]; exact h
  · rw [if_neg h]; simp

/-- Claim C8: `unmountComponent` on a not-mounted instance (never mounted or
already unmounted) returns without throwing, runs nothing and leaves both the
instance and the exclusion set unchanged; after a successful unmount the
instance is unmounted, so a second unmount is exactly such a no-op. -/
theorem unmountComponent_idempotent (excl : List Nat) (inst : ComponentInstance) :
    (inst.isMounted = false →
      unmountComponent excl inst
        = some { excl := excl, inst := inst, cleanupsRun := 0, releasesRun := 0 }) ∧
    (∀ h, inst.isMounted = true → inst.hooks = some h →
      ∃ r, unmountComponent excl inst = some r ∧
        r.inst.isMounted = false ∧
        unmountComponent r.excl r.inst
          = some { excl := r.excl, inst := r.inst, cleanupsRun := 0, releasesRun := 0 }) := by
  constructor
  · intro hm
    rw [unmountComponent, if_pos hm]
  · intro h hm hh
    have hfin : unmountComponent excl inst = some
        { excl := insertId excl inst.id
          inst := helpGc { inst with isMounted := false }
          cleanupsRun := (h.effects.filter (fun e => e.hasCleanup)).length
          releasesRun := (h.effects.filter (fun e => e.hasReleaseSignals)).length } := by
      rw [unmountComponent, if_neg (by simp [hm]), hh]
    refine ⟨_, hfin, rfl, ?_⟩
    have hunm : (helpGc { inst with isMounted := false }).isMounted = false := rfl
    rw [unmountComponent, if_pos hunm]

/-- Claim C9: for an instance that is not mounted (torn down or never
mounted), `prepareComponentForFrame` and `forceUpdateComponent` are guarded
no-ops that never dereference hook storage; and an actual unmount adds the
instance id to the exclusion set and leaves the instance unmounted, so both
guards apply to it during the next flush. -/
theorem unmounted_instance_guards (excl : List Nat) (alloc : Nat)
    (inst : ComponentInstance) (fx : RenderEffect) :
    (inst.isMounted = false →
      prepareComponentForFrame inst = some inst ∧
      forceUpdateComponent excl alloc inst fx
        = { excl := excl, alloc := alloc, inst := inst, errors := [],
            onUpdateCalled := false }) ∧
    (∀ h, inst.isMounted = true → inst.hooks = some h →
      ∃ r, unmountComponent excl inst = some r ∧
        inst.id ∈ r.excl ∧
        r.inst.isMounted = false ∧
        prepareComponentForFrame r.inst = some r.inst ∧
        (∀ (excl2 : List Nat) (alloc2 : Nat) (fx2 : RenderEffect),
          forceUpdateComponent excl2 alloc2 r.inst fx2
            = { excl := excl2, alloc := alloc2, inst := r.inst, errors := [],
                onUpdateCalled := false })) := by
  constructor
  · intro hm
    constructor
    · rw [prepareComponentForFrame, if_pos hm]
    · rw [forceUpdateComponent, if_pos (Or.inl hm)]
  · intro h hm hh
    have hfin : unmountComponent excl inst = some
        { excl := insertId excl inst.id
          inst := helpGc { inst with isMounted := false }
          cleanupsRun := (h.effects.filter (fun e => e.hasCleanup)).length
          releasesRun := (h.effects.filter (fun e => e.hasReleaseSignals)).length } := by
      rw [unmountComponent, if_neg (by simp [hm]), hh]
    have hunm : (helpGc { inst with isMounted := false }).isMounted = false := rfl
    refine ⟨_, hfin, mem_insertId excl inst.id, rfl, ?_, ?_⟩
    · rw [prepareComponentForFrame, if_pos hunm]
    · intro excl2 alloc2 fx2
      rw [forceUpdateComponent, if_pos (Or.inl hunm)]

theorem foldl_stateSetterWrite_value (args : List SetterArg) (hk : StateHook) :
    (args.foldl stateSetterWrite hk).value = hk.value := by
  induction args generalizing hk with
  | nil => rfl
  | cons a as ih => rw [List.foldl_cons, ih]; rfl

theorem foldl_stateSetterWrite_hasSetter (args : List SetterArg) (hk : StateHook) :
    (args.foldl stateSetterWrite hk).hasSetter = hk.hasSetter := by
  induction args generalizing hk with
  | nil => rfl
  | cons a as ih => rw [List.foldl_cons, ih]; rfl

theorem foldl_stateSetterWrite_nextValue (a : SetterArg) (as : List SetterArg)
    (hk : StateHook) :
    ((a :: as).foldl stateSetterWrite hk).nextValue
      = resolveSetterArg hk.value (as.getLastD a) := by
  induction as generalizing a hk with
  | nil => rfl
  | cons b bs ih =>
    rw [List.foldl_cons, ih b (stateSetterWrite hk a), List.getLastD_cons]
    rfl

/-- Claim C4 (spec-modelled `useState` setter): a setter call writes only the
staged next-value slot — the live value (and the stored setter) are never
synchronously changed — and after the next frame's prepare-for-frame step the
live value of the slot equals the last value requested within the frame. -/
theorem stateSetter_staged_last_write_wins
    (inst : ComponentInstance) (h : Hooks) (i : Nat) (hook : StateHook)
    (a : SetterArg) (as : List SetterArg)
    (hm : inst.isMounted = true) (_hh : inst.hooks = some h)
    (hget : h.state[i]? = some hook) :
    (∀ (hk : StateHook) (arg : SetterArg),
      (stateSetterWrite hk arg).value = hk.value ∧
      (stateSetterWrite hk arg).hasSetter = hk.hasSetter) ∧
    ((a :: as).foldl stateSetterWrite hook).value = hook.value ∧
    (∃ inst2 h2,
      prepareComponentForFrame { inst with hooks := some { h with state := h.state.set i ((a :: as).foldl stateSetterWrite hook) } } = some inst2 ∧
      inst2.hooks = some h2 ∧
      h2.state[i]?
        = some { value := resolveSetterArg hook.value (as.getLastD a)
                 nextValue := resolveSetterArg hook.value (as.getLastD a)
                 hasSetter := hook.hasSetter }) := by
  refine ⟨fun hk arg => ⟨rfl, rfl⟩, foldl_stateSetterWrite_value (a :: as) hook, ?_⟩
  have hlt : i < h.state.length := (List.getElem?_eq_some.mp hget).1
  have hprep : prepareComponentForFrame { inst with hooks := some { h with state := h.state.set i ((a :: as).foldl stateSetterWrite hook) } } = some { inst with hooks := some { h with state := (h.state.set i ((a :: as).foldl stateSetterWrite hook)).map (fun s => { s with value := s.nextValue }) } } := by
    rw [prepareComponentForFrame, if_neg (by simp [hm])]
  refine ⟨_, _, hprep, rfl, ?_⟩
  rw [List.getElem?_map,
    List.getElem?_set_eq_of_lt _ (by simpa using hlt)]
  simp only [Option.map_some']
  congr 1
  have hv := foldl_stateSetterWrite_value (a :: as) hook
  have hs := foldl_stateSetterWrite_hasSetter (a :: as) hook
  have hn := foldl_stateSetterWrite_nextValue a as hook
  cases hfold : (a :: as).foldl stateSetterWrite hook with
  | mk v nv st =>
    rw [hfold] at hv hs hn
    simp at hv hs hn
    simp [hn, hs]

theorem getQ_setQ_same (k : QueueKind) (s : EffectQueues) (q : CbQueue) :
    getQ k (setQ k s q) = q := by
  cases k <;> rfl

theorem getQ_setQ_ne (k k2 : QueueKind) (s : EffectQueues) (q : CbQueue)
    (h : k ≠ k2) : getQ k (setQ k2 s q) = getQ k s := by
  cases k <;> cases k2 <;> first | rfl | exact absurd rfl h

theorem mem_keys_mapSet (m : CbQueue) (k : String) (v : CB) (x : String)
    (hx : x ∈ m.map Prod.fst) : x ∈ (mapSet m k v).map Prod.fst := by
  rw [mapSet]
  by_cases h : m.any (fun p => p.1 == k)
  · rw [if_pos h]
    simp only [List.map_map, List.mem_map] at hx ⊢
    obtain ⟨p, hp, hpx⟩ := hx
    refine ⟨p, hp, ?_⟩
    by_cases hpk : p.1 == k
    · have hpk2 : p.1 = k := by simpa using hpk
      simp only [Function.comp_apply, hpk, if_pos]
      rw [← hpx, hpk2]
    · simp only [Function.comp_apply, hpk]
      simp only [Bool.false_eq_true, if_false]
      exact hpx
  · rw [if_neg h]
    simp only [List.map_append, List.mem_append]
    exact Or.inl hx

theorem self_mem_keys_mapSet (m : CbQueue) (k : String) (v : CB) :
    k ∈ (mapSet m k v).map Prod.fst := by
  rw [mapSet]
  by_cases h : m.any (fun p => p.1 == k)
  · rw [if_pos h]
    obtain ⟨p, hp, hpk⟩ := List.any_eq_true.mp h
    exact List.mem_map.mpr ⟨(k, v), List.mem_map.mpr ⟨p, hp, by simp [hpk]⟩, rfl⟩
  · rw [if_neg h]
    simp

theorem mem_keys_foldl_enq (l : List (QueueKind × String × CB)) (s : EffectQueues)
    (q : QueueKind) (x : String)
    (hx : x ∈ (getQ q s).map Prod.fst) :
    x ∈ (getQ q (l.foldl
        (fun st e => setQ e.1 st (mapSet (getQ e.1 st) e.2.1 e.2.2)) s)).map Prod.fst := by
  induction l generalizing s with
  | nil => exact hx
  | cons e es ih =>
    rw [List.foldl_cons]
    apply ih
    by_cases hq : q = e.1
    · subst hq
      rw [getQ_setQ_same]
      exact mem_keys_mapSet _ _ _ _ hx
    · rw [getQ_setQ_ne q e.1 _ _ hq]
      exact hx

theorem mem_keys_runCb (s : EffectQueues) (cb : CB) (q : QueueKind) (x : String)
    (hx : x ∈ (getQ q s).map Prod.fst) :
    x ∈ (getQ q (runCb s cb)).map Prod.fst := by
  rw [runCb]
  exact mem_keys_foldl_enq cb.enqList s q x hx

theorem added_mem_keys_runCb (s : EffectQueues) (cb : CB) (q : QueueKind)
    (key : String) (v : CB) (he : (q, key, v) ∈ cb.enqList) :
    key ∈ (getQ q (runCb s cb)).map Prod.fst := by
  obtain ⟨l1, l2, hsplit⟩ := List.append_of_mem he
  rw [runCb, hsplit, List.foldl_append, List.foldl_cons]
  apply mem_keys_foldl_enq
  rw [getQ_setQ_same]
  exact self_mem_keys_mapSet _ _ _

theorem mem_keys_foldl_runCb (l : CbQueue) (s : EffectQueues) (q : QueueKind)
    (x : String)
    (hx : x ∈ (getQ q s).map Prod.fst) :
    x ∈ (getQ q (l.foldl (fun st p => runCb st p.2) s)).map Prod.fst := by
  induction l generalizing s with
  | nil => exact hx
  | cons p ps ih =>
    rw [List.foldl_cons]
    exact ih _ (mem_keys_runCb _ _ _ _ hx)

theorem getQ_foldl_enq_no_target (l : List (QueueKind × String × CB))
    (s : EffectQueues) (k : QueueKind)
    (hl : ∀ e ∈ l, e.1 ≠ k) (hs : getQ k s = []) :
    getQ k (l.foldl
        (fun st e => setQ e.1 st (mapSet (getQ e.1 st) e.2.1 e.2.2)) s) = [] := by
  induction l generalizing s with
  | nil => exact hs
  | cons e es ih =>
    rw [List.foldl_cons]
    refine ih _ (fun e2 he2 => hl e2 (List.mem_cons_of_mem e he2)) ?_
    rw [getQ_setQ_ne k e.1 _ _ (fun hq => hl e (List.mem_cons_self e es) (hq ▸ rfl))]
    exact hs

theorem getQ_foldl_runCb_no_target (l : CbQueue) (s : EffectQueues) (k : QueueKind)
    (hl : ∀ p ∈ l, ∀ e ∈ (p.2 : CB).enqList, e.1 ≠ k) (hs : getQ k s = []) :
    getQ k (l.foldl (fun st p => runCb st p.2) s) = [] := by
  induction l generalizing s with
  | nil => exact hs
  | cons p ps ih =>
    rw [List.foldl_cons]
    refine ih _ (fun p2 hp2 => hl p2 (List.mem_cons_of_mem p hp2)) ?_
    rw [runCb]
    exact getQ_foldl_enq_no_target _ _ _ (hl p (List.mem_cons_self p ps)) hs

/-- Claim C7: each queue drain swaps the shared queue for a fresh empty one
before iterating: the callbacks invoked by a drain are exactly the snapshot
present at swap time (so a callback enqueued re-entrantly during the drain is
never invoked by that same drain); every entry enqueued by an invoked
callback is present in the resulting queues (re-entrant work lands in the
next flush and is not lost); and if no invoked callback re-enqueues into the
drained queue, that queue ends empty. -/
theorem drainQueue_swaps_before_iterating (k : QueueKind) (s : EffectQueues) :
    (drainQueue k s).2 = getQ k s ∧
    (∀ p ∈ getQ k s, ∀ e ∈ (p.2 : CB).enqList,
      e.2.1 ∈ (getQ e.1 (drainQueue k s).1).map Prod.fst) ∧
    ((∀ p ∈ getQ k s, ∀ e ∈ (p.2 : CB).enqList, e.1 ≠ k) →
      getQ k (drainQueue k s).1 = []) := by
  refine ⟨rfl, ?_, ?_⟩
  · intro p hp e hee
    obtain ⟨q, key, v⟩ := e
    obtain ⟨l1, l2, hsplit⟩ := List.append_of_mem hp
    show key ∈ (getQ q ((getQ k s).foldl (fun st p => runCb st p.2)
        (setQ k s []))).map Prod.fst
    rw [hsplit, List.foldl_append, List.foldl_cons]
    apply mem_keys_foldl_runCb
    exact added_mem_keys_runCb _ _ _ _ _ hee
  · intro hno
    show getQ k ((getQ k s).foldl (fun st p => runCb st p.2) (setQ k s [])) = []
    exact getQ_foldl_runCb_no_target _ _ _ hno (getQ_setQ_same k s [])

theorem prepare_of_wf (i : ComponentInstance)
    (hw : i.isMounted = true → i.hooks.isSome) :
    ∃ i1, prepareComponentForFrame i = some i1 ∧ i1.id = i.id ∧
      (i1.isMounted = true → ∀ h1, i1.hooks = some h1 →
        ∀ s ∈ h1.state, s.value = s.nextValue) := by
  cases hb : i.isMounted with
  | false =>
    refine ⟨i, by rw [prepareComponentForFrame, if_pos hb], rfl, ?_⟩
    intro hmt
    rw [hb] at hmt
    exact absurd hmt (by simp)
  | true =>
    obtain ⟨h, hh⟩ := Option.isSome_iff_exists.mp (hw hb)
    have heq : prepareComponentForFrame i = some { i with hooks := some { h with state := h.state.map (fun s => { s with value := s.nextValue }) } } := by
      rw [prepareComponentForFrame, if_neg (by simp [hb]), hh]
    refine ⟨_, heq, rfl, ?_⟩
    intro _ h1 hh1 s hs
    have hx : h1 = { h with state := h.state.map (fun s => { s with value := s.nextValue }) } :=
      (Option.some.inj hh1).symm
    subst hx
    simp only [List.mem_map] at hs
    obtain ⟨t, ht, rfl⟩ := hs
    rfl

theorem prepAll_of_wf (l : List ComponentInstance)
    (hw : ∀ i ∈ l, i.isMounted = true → i.hooks.isSome) :
    ∃ l2, prepAll l = some l2 ∧
      ∀ i1 ∈ l2, i1.isMounted = true → ∀ h1, i1.hooks = some h1 →
        ∀ s ∈ h1.state, s.value = s.nextValue := by
  induction l with
  | nil => exact ⟨[], rfl, by simp⟩
  | cons i is ih =>
    obtain ⟨i1, hi1, _, hprop⟩ := prepare_of_wf i (hw i (List.mem_cons_self i is))
    obtain ⟨l2, hl2, hprops⟩ := ih (fun j hj => hw j (List.mem_cons_of_mem i hj))
    refine ⟨i1 :: l2, ?_, ?_⟩
    · simp only [prepAll, hi1, hl2, Option.map_some']
    · intro j hj
      rcases List.mem_cons.mp hj with rfl | hj
      · exact hprop
      · exact hprops j hj

theorem updStep_skip (fx : Nat → RenderEffect) (acc : WritePhaseState)
    (inst : ComponentInstance) (hmem : inst.id ∈ acc.excl) :
    updStep fx acc inst
      = { acc with processed := acc.processed ++ [inst]
                   trace := acc.trace ++ [PassEvent.skip inst.id] } := by
  rw [updStep, if_pos hmem]

theorem updStep_trace (fx : Nat → RenderEffect) (acc : WritePhaseState)
    (inst : ComponentInstance) :
    ∃ e, (updStep fx acc inst).trace = acc.trace ++ [e] ∧ e.isPrep = false := by
  rw [updStep]
  by_cases hmem : inst.id ∈ acc.excl
  · exact ⟨.skip inst.id, by rw [if_pos hmem], rfl⟩
  · exact ⟨.update inst.id, by rw [if_neg hmem], rfl⟩

theorem foldl_updStep_trace (fx : Nat → RenderEffect)
    (l : List ComponentInstance) (acc : WritePhaseState) :
    ∃ tail, (l.foldl (updStep fx) acc).trace = acc.trace ++ tail ∧
      ∀ e ∈ tail, e.isPrep = false := by
  induction l generalizing acc with
  | nil => exact ⟨[], by simp, by simp⟩
  | cons i is ih =>
    obtain ⟨e, he, hep⟩ := updStep_trace fx acc i
    obtain ⟨tail, ht, htp⟩ := ih (updStep fx acc i)
    refine ⟨e :: tail, ?_, ?_⟩
    · rw [List.foldl_cons, ht, he, List.append_assoc, List.singleton_append]
    · intro x hx
      rcases List.mem_cons.mp hx with rfl | hx
      · exact hep
      · exact htp x hx

theorem enqueueUpdate_nodup (pending : List ComponentInstance)
    (inst : ComponentInstance)
    (h : (pending.map (fun i => i.id)).Nodup) :
    ((enqueueUpdate pending inst).map (fun i => i.id)).Nodup := by
  rw [enqueueUpdate]
  by_cases hmem : pending.any (fun i => i.id == inst.id)
  · rw [if_pos hmem]
    exact h
  · rw [if_neg hmem]
    have hnot : inst.id ∉ pending.map (fun i => i.id) := by
      intro hmm
      obtain ⟨j, hj, hjid⟩ := List.mem_map.mp hmm
      exact hmem (List.any_eq_true.mpr ⟨j, hj, by simp [hjid]⟩)
    rw [List.map_append, List.nodup_append]
    refine ⟨h, by simp, ?_⟩
    intro a ha hb
    simp only [List.map_cons, List.map_nil, List.mem_singleton] at hb
    exact hnot (hb ▸ ha)

theorem sortInstancesById_perm (l : List ComponentInstance) :
    (sortInstancesById l).Perm l :=
  List.mergeSort_perm l _

theorem sortInstancesById_sorted_ids (l : List ComponentInstance)
    (h : (l.map (fun i => i.id)).Nodup) :
    ((sortInstancesById l).map (fun i => i.id)).Sorted (· < ·) := by
  have htrans : ∀ (a b c : ComponentInstance), decide (a.id ≤ b.id) = true →
      decide (b.id ≤ c.id) = true → decide (a.id ≤ c.id) = true := by
    intro a b c hab hbc
    simp only [decide_eq_true_eq] at hab hbc ⊢
    omega
  have htotal : ∀ (a b : ComponentInstance),
      (decide (a.id ≤ b.id) || decide (b.id ≤ a.id)) = true := by
    intro a b
    simp only [Bool.or_eq_true, decide_eq_true_eq]
    omega
  have hpw := List.sorted_mergeSort htrans htotal l
  have hle : ((sortInstancesById l).map (fun i => i.id)).Sorted (· ≤ ·) := by
    show List.Pairwise _ _
    rw [List.pairwise_map]
    exact hpw.imp (fun hab => by simpa using hab)
  have hnd : ((sortInstancesById l).map (fun i => i.id)).Nodup :=
    (((sortInstancesById_perm l).map (fun i => i.id)).nodup_iff).mpr h
  exact hle.lt_of_le hnd

/-- Claim C2: one write phase of the frame scheduler processes the pending
instances deduplicated and in ascending id order (enqueueing keeps the
pending set duplicate-free); every pending instance is prepared for the frame
(staged state copied into live state) before any forced update runs, and the
prepare step ignores the exclusion set; an instance whose id is in the
exclusion set when its forced-update turn comes is skipped: left untouched,
no render, no error, no `onUpdate`. -/
theorem writePhase_spec (fx : Nat → RenderEffect) (excl0 : List Nat) (alloc0 : Nat)
    (pending : List ComponentInstance)
    (hids : (pending.map (fun i => i.id)).Nodup)
    (hwf : ∀ i ∈ pending, i.isMounted = true → i.hooks.isSome) :
    ∃ r, writePhase fx excl0 alloc0 pending = some r ∧
      ((sortInstancesById pending).map (fun i => i.id)).Sorted (· < ·) ∧
      ((sortInstancesById pending).map (fun i => i.id)).Perm
        (pending.map (fun i => i.id)) ∧
      (∃ tail, r.trace
          = ((sortInstancesById pending).map (fun i => PassEvent.prep i.id)) ++ tail ∧
        ∀ e ∈ tail, e.isPrep = false) ∧
      (∃ prepared, prepAll (sortInstancesById pending) = some prepared ∧
        ∀ i1 ∈ prepared, i1.isMounted = true → ∀ h1, i1.hooks = some h1 →
          ∀ s ∈ h1.state, s.value = s.nextValue) ∧
      (∀ (acc : WritePhaseState) (inst : ComponentInstance), inst.id ∈ acc.excl →
        updStep fx acc inst
          = { acc with processed := acc.processed ++ [inst]
                       trace := acc.trace ++ [PassEvent.skip inst.id] }) ∧
      (∀ (pend2 : List ComponentInstance) (inst : ComponentInstance),
        (pend2.map (fun i => i.id)).Nodup →
        ((enqueueUpdate pend2 inst).map (fun i => i.id)).Nodup) := by
  obtain ⟨prepared, hprep, hprops⟩ := prepAll_of_wf (sortInstancesById pending)
    (fun i hi => hwf i ((sortInstancesById_perm pending).subset hi))
  have hfin : writePhase fx excl0 alloc0 pending
      = some (prepared.foldl (updStep fx)
          { excl := excl0
            alloc := alloc0
            processed := []
            errors := []
            updatedIds := []
            trace := (sortInstancesById pending).map (fun i => PassEvent.prep i.id) }) := by
    rw [writePhase]
    simp only [hprep]
  refine ⟨_, hfin, sortInstancesById_sorted_ids pending hids,
    (sortInstancesById_perm pending).map (fun i => i.id), ?_, ⟨prepared, hprep, hprops⟩,
    updStep_skip fx, enqueueUpdate_nodup⟩
  exact foldl_updStep_trace fx prepared _

/-- Witness for C1: the bail-out theorem instantiated at the concrete mounted
instance whose render returns the stored reference. -/
theorem renderComponent_bailout_witness :
    witMounted.isMounted = true ∧
    witMounted.hooks = some emptyHooks ∧
    witFxOk.result = .ok (RawValue.single 5 (.prim "x")) ∧
    RawValue.refEq (.single 5 (.prim "x")) witMounted.renderedValue = true ∧
    ((renderComponent [] 10 witMounted witFxOk).ret = witMounted.element ∧
     (renderComponent [] 10 witMounted witFxOk).inst.element = witMounted.element ∧
     (renderComponent [] 10 witMounted witFxOk).inst.renderedValue
       = witMounted.renderedValue ∧
     (renderComponent [] 10 witMounted witFxOk).alloc = 10 ∧
     (forceUpdateComponent [] 10 witMounted witFxOk).onUpdateCalled = false) :=
  ⟨rfl, rfl, rfl, rfl,
   renderComponent_bailout [] 10 witMounted emptyHooks witFxOk
     (RawValue.single 5 (.prim "x")) rfl rfl rfl rfl⟩

/-- Witness for C3: the render-throws theorem instantiated at the concrete
mounted instance. -/
theorem renderComponent_render_throws_witness :
    witMounted.hooks = some emptyHooks ∧
    witFxErr.result = .error () ∧
    ((renderComponent [] 10 witMounted witFxErr).errors
       = [renderErrorMsg witMounted.name] ∧
     (renderComponent [] 10 witMounted witFxErr).inst.renderedValue
       = witMounted.renderedValue ∧
     (witMounted.isMounted = true →
       (renderComponent [] 10 witMounted witFxErr).inst.element = witMounted.element ∧
       (renderComponent [] 10 witMounted witFxErr).ret = witMounted.element)) :=
  ⟨rfl, rfl,
   renderComponent_render_throws [] 10 witMounted emptyHooks witFxErr rfl rfl⟩

/-- Witness for C10: the mount-with-throwing-first-render theorem
instantiated at the concrete never-mounted instance. -/
theorem mountComponent_first_render_throws_witness :
    witUnmounted.isMounted = false ∧
    witUnmounted.hooks = some emptyHooks ∧
    witUnmounted.renderedValue = .undef ∧
    witFxErr.result = .error () ∧
    ((∀ (excl2 : List Nat) (alloc2 : Nat) (inst2 : ComponentInstance)
        (fx2 : RenderEffect),
        (mountComponent excl2 alloc2 inst2 fx2).inst.isMounted = true) ∧
     (∃ e, (mountComponent [] 0 witUnmounted witFxErr).ret = some e ∧
        e.children = [VirtualElement.empty] ∧
        (mountComponent [] 0 witUnmounted witFxErr).inst.element = some e) ∧
     (mountComponent [] 0 witUnmounted witFxErr).errors
       = [renderErrorMsg witUnmounted.name] ∧
     (mountComponent [] 0 witUnmounted witFxErr).inst.renderedValue = .undef) :=
  ⟨rfl, rfl, rfl, rfl,
   mountComponent_first_render_throws [] 0 witUnmounted emptyHooks witFxErr
     rfl rfl rfl rfl⟩

/-- Witness for C4: the last-write-wins theorem instantiated at the concrete
instance with one state slot and two setter calls in the same frame. -/
theorem stateSetter_staged_last_write_wins_witness :
    witMountedState.isMounted = true ∧
    witMountedState.hooks = some witStateHooks ∧
    witStateHooks.state[0]? = some { value := some 2, nextValue := some 2, hasSetter := true } ∧
    ((∀ (hk : StateHook) (arg : SetterArg),
      (stateSetterWrite hk arg).value = hk.value ∧
      (stateSetterWrite hk arg).hasSetter = hk.hasSetter) ∧
    ([SetterArg.direct (some 9), SetterArg.direct (some 3)].foldl stateSetterWrite
        { value := some 2, nextValue := some 2, hasSetter := true }).value = some 2 ∧
    (∃ inst2 h2,
      prepareComponentForFrame { witMountedState with hooks := some { witStateHooks with state := witStateHooks.state.set 0 ([SetterArg.direct (some 9), SetterArg.direct (some 3)].foldl stateSetterWrite { value := some 2, nextValue := some 2, hasSetter := true }) } } = some inst2 ∧
      inst2.hooks = some h2 ∧
      h2.state[0]?
        = some { value := resolveSetterArg (some 2)
                   ([SetterArg.direct (some 3)].getLastD (SetterArg.direct (some 9)))
                 nextValue := resolveSetterArg (some 2)
                   ([SetterArg.direct (some 3)].getLastD (SetterArg.direct (some 9)))
                 hasSetter := true })) :=
  ⟨rfl, rfl, rfl,
   stateSetter_staged_last_write_wins witMountedState witStateHooks 0
     { value := some 2, nextValue := some 2, hasSetter := true }
     (SetterArg.direct (some 9)) [SetterArg.direct (some 3)] rfl rfl rfl⟩

/-- Witness for C7: the drain theorem instantiated at a concrete queue whose
single cleanup re-enqueues into the queue being drained. -/
theorem drainQueue_swaps_before_iterating_witness :
    (drainQueue .cleanup witQueues).2 = getQ .cleanup witQueues ∧
    (∀ p ∈ getQ .cleanup witQueues, ∀ e ∈ (p.2 : CB).enqList,
      e.2.1 ∈ (getQ e.1 (drainQueue .cleanup witQueues).1).map Prod.fst) ∧
    ((∀ p ∈ getQ .cleanup witQueues, ∀ e ∈ (p.2 : CB).enqList, e.1 ≠ .cleanup) →
      getQ .cleanup (drainQueue .cleanup witQueues).1 = []) :=
  drainQueue_swaps_before_iterating .cleanup witQueues

/-- Witness for C8: the idempotence theorem applied to the concrete mounted
instance — its actual unmount succeeds and the repeat is a no-op. -/
theorem unmountComponent_idempotent_witness :
    witMounted.isMounted = true ∧
    witMounted.hooks = some emptyHooks ∧
    (∃ r, unmountComponent [] witMounted = some r ∧
      r.inst.isMounted = false ∧
      unmountComponent r.excl r.inst
        = some { excl := r.excl, inst := r.inst, cleanupsRun := 0, releasesRun := 0 }) :=
  ⟨rfl, rfl, (unmountComponent_idempotent [] witMounted).2 emptyHooks rfl rfl⟩

/-- Witness for C9: the guard theorem applied to the concrete never-mounted
instance and to the concrete mounted instance being unmounted. -/
theorem unmounted_instance_guards_witness :
    (witUnmounted.isMounted = false ∧
     (prepareComponentForFrame witUnmounted = some witUnmounted ∧
      forceUpdateComponent [] 0 witUnmounted witFxOk
        = { excl := [], alloc := 0, inst := witUnmounted, errors := [],
            onUpdateCalled := false })) ∧
    (witMounted.isMounted = true ∧
     witMounted.hooks = some emptyHooks ∧
     (∃ r, unmountComponent [] witMounted = some r ∧
        witMounted.id ∈ r.excl ∧
        r.inst.isMounted = false ∧
        prepareComponentForFrame r.inst = some r.inst ∧
        (∀ (excl2 : List Nat) (alloc2 : Nat) (fx2 : RenderEffect),
          forceUpdateComponent excl2 alloc2 r.inst fx2
            = { excl := excl2, alloc := alloc2, inst := r.inst, errors := [],
                onUpdateCalled := false }))) :=
  ⟨⟨rfl, (unmounted_instance_guards [] 0 witUnmounted witFxOk).1 rfl⟩,
   ⟨rfl, rfl, (unmounted_instance_guards [] 0 witMounted witFxOk).2 emptyHooks rfl rfl⟩⟩

/-- Witness for C2: the write-phase theorem instantiated at two concrete
pending instances enqueued out of id order. -/
theorem writePhase_spec_witness :
    (([witInstA, witInstB].map (fun i => i.id)).Nodup) ∧
    (∀ i ∈ [witInstA, witInstB], i.isMounted = true → i.hooks.isSome) ∧
    (∃ r, writePhase witFx [] 0 [witInstA, witInstB] = some r ∧
      ((sortInstancesById [witInstA, witInstB]).map (fun i => i.id)).Sorted (· < ·) ∧
      ((sortInstancesById [witInstA, witInstB]).map (fun i => i.id)).Perm
        ([witInstA, witInstB].map (fun i => i.id)) ∧
      (∃ tail, r.trace
          = ((sortInstancesById [witInstA, witInstB]).map
              (fun i => PassEvent.prep i.id)) ++ tail ∧
        ∀ e ∈ tail, e.isPrep = false) ∧
      (∃ prepared, prepAll (sortInstancesById [witInstA, witInstB]) = some prepared ∧
        ∀ i1 ∈ prepared, i1.isMounted = true → ∀ h1, i1.hooks = some h1 →
          ∀ s ∈ h1.state, s.value = s.nextValue) ∧
      (∀ (acc : WritePhaseState) (inst : ComponentInstance), inst.id ∈ acc.excl →
        updStep witFx acc inst
          = { acc with processed := acc.processed ++ [inst]
                       trace := acc.trace ++ [PassEvent.skip inst.id] }) ∧
      (∀ (pend2 : List ComponentInstance) (inst : ComponentInstance),
        (pend2.map (fun i => i.id)).Nodup →
        ((enqueueUpdate pend2 inst).map (fun i => i.id)).Nodup)) := by
  have hwf : ∀ i ∈ [witInstA, witInstB], i.isMounted = true → i.hooks.isSome := by
    intro i hi
    rcases List.mem_cons.mp hi with rfl | hi
    · intro _; rfl
    · rcases List.mem_cons.mp hi with rfl | hi
      · intro _; rfl
      · cases hi
  exact ⟨by decide, hwf,
    writePhase_spec witFx [] 0 [witInstA, witInstB] (by decide) hwf⟩
